import Mathlib

/-!
Verification of the butterfly-mesh configuration core (`butterfly.py`,
class `ButterflyNetwork`).  The decomposition pipeline is embedded
shallowly: numpy arrays become total functions out of `ℕ` (or `Fin 2`)
index spaces, the complex scalar field and the MZI crossing routines
(whose source file `crossing.py` is not part of the sources at hand)
are kept abstract as an operations record, and `numpy.linalg.svd` is an
abstract parameter.  All structural and arithmetic content of
`ButterflyNetwork.__init__` is translated faithfully from the source.
-/

/-- Matrices indexed by natural numbers (numpy 2-d arrays; the active
index range is tracked by the surrounding code, as in the source). -/
abbrev Mat (α : Type) := ℕ → ℕ → α

/-- Vectors indexed by natural numbers (numpy 1-d arrays). -/
abbrev Vec (α : Type) := ℕ → α

/-- Position of the lowest set bit, with explicit fuel.  Translates
`np.binary_repr(n)[::-1].index('1')` from the source: the index of the
first 1 in the little-endian binary expansion of `n`.  The fuel (always
instantiated with `n` itself, which bounds the bit length) makes the
recursion structural. -/
def lowBitAux : ℕ → ℕ → ℕ
  | 0, _ => 0
  | fuel+1, n => if n % 2 = 1 then 0 else lowBitAux fuel (n / 2) + 1

/-- Position of the lowest set bit of `n` (meaningful for `n > 0`). -/
def lowBitPos (n : ℕ) : ℕ := lowBitAux n n

/-- Stride of layer `i`: the source computes
`s = 2**np.binary_repr(i+1)[::-1].index('1')` for each layer `i`. -/
def strideOf (i : ℕ) : ℕ := 2 ^ lowBitPos (i + 1)

/-- Flattened inner index map of the first permutation of a layer with
stride `s`: row-major flattening of the `(s, 2)` array
`np.outer(np.arange(s),1) + [[0, s]]`, whose entry `[r, c]` is
`r + c*s`. -/
def x1p (s t : ℕ) : ℕ := t / 2 + (if t % 2 = 1 then s else 0)

/-- Flattened inner index map of the second permutation of a layer with
stride `s`: row-major flattening of the `(2, s)` array
`np.outer(1, np.arange(0, 2*s, 2)) + [[0], [1]]`, whose entry `[r, c]`
is `2*c + r`. -/
def x2p (s t : ℕ) : ℕ := if t < s then 2 * t else 2 * (t - s) + 1

/-- First per-layer permutation vector
`(np.outer(1, x1) + np.outer(np.arange(0, N, 2*s), 1)).flatten()`:
entry `m` lives in block `q = m / (2s)` at inner offset `t = m % (2s)`
and has value `2s*q + x1[t]`.  (The mesh size `N` only fixes the index
range, it does not enter the formula.) -/
def permP1 (s : ℕ) : ℕ → ℕ := fun m => 2 * s * (m / (2 * s)) + x1p s (m % (2 * s))

/-- Second per-layer permutation vector, same block structure with the
inner map `x2p`. -/
def permP2 (s : ℕ) : ℕ → ℕ := fun m => 2 * s * (m / (2 * s)) + x2p s (m % (2 * s))

/-- Per-layer crossing counts: `lens = [N//2]*(N-1)` in the source. -/
def lensOf (N : ℕ) : List ℕ := List.replicate (N - 1) (N / 2)

/-- Per-layer shifts: `shifts = [0]*(N-1)` in the source. -/
def shiftsOf (N : ℕ) : List ℕ := List.replicate (N - 1) 0

/-- All per-layer permutation vectors of the phase-solving pass, in the
order the layers are traversed (layer `i` generates `p1` then `p2`). -/
def allLayerPerms (N : ℕ) : List (ℕ → ℕ) :=
  (List.range (N - 1)).flatMap (fun i => [permP1 (strideOf i), permP2 (strideOf i)])

/-- Composition of all layer permutations in propagation order. -/
def composedPerms (N : ℕ) : ℕ → ℕ :=
  (allLayerPerms N).foldl (fun f g => g ∘ f) id

/-- Abstract scalar and crossing operations.  `α` is the complex
amplitude type, `φ` the real phase type, `σ` the splitter-imperfection
type.  The pure arithmetic fields stand for the corresponding complex
operations of the source.  `tsolve` and `tfwd` are Modelled from the
spec: the MZI crossing source file is not among the sources at hand, so
the inverse solve (`MZICrossing.Tsolve`, called with a mode string and
a pair of per-crossing target amplitude vectors; the array reshaping
`[:1])[0].T` of the source is folded into the returned shape
crossing-index → parameter-index) and the forward map (`MZICrossing.T`,
spec §6: `forward(params, splitter_imperfections) → 2×2 unitary`) are
abstract fields; `sdefault` is the default splitter value the source's
calls fall back to, since they pass no splitter argument. -/
structure MZIOps (α φ σ : Type) where
  zero : α
  add : α → α → α
  mul : α → α → α
  div : α → α → α
  conj : α → α
  cexp : φ → α
  angle : α → φ
  sdefault : σ
  tsolve : String → Vec α → Vec α → ℕ → Fin 2 → φ
  tfwd : (Fin 2 → φ) → σ → Fin 2 → Fin 2 → α

/-- Matrix product of two `m × m` blocks (`numpy.dot` restricted to the
active index range, as a left fold of the summation). -/
def matmul {α φ σ : Type} (ops : MZIOps α φ σ) (m : ℕ) (A B : Mat α) : Mat α :=
  fun i j => (List.range m).foldl (fun acc l => ops.add acc (ops.mul (A i l) (B l j))) ops.zero

/-- Conjugate transpose `A.T.conj()`. -/
def dagger {α φ σ : Type} (ops : MZIOps α φ σ) (A : Mat α) : Mat α :=
  fun i j => ops.conj (A j i)

/-- Recursive block-wise SVD decomposition `configButterfly(U, Dij)` of
the source, for a block of size `n = 2^(k+1)`.  `svd m A` abstracts
`numpy.linalg.svd` on an `m × m` block, returning `(V, D, W)` with the
source's usage `A = V·diag(D)·W`.  The result is the local `Dij` tensor
of shape `(2, 2, n-1, n/2)` as a total function (entries never written
stay at the initial `np.zeros` value).  The four recursive calls write
into the four disjoint sub-views `Dij[:, :, :n/2, :n/4]` (from `W1`),
`Dij[:, :, :n/2, n/4:]` (from `W2`), `Dij[:, :, n/2:, :n/4]` (from
`V1`) and `Dij[:, :, n/2:, n/4:]` (from `V2`), and the current call
writes layer `n/2 - 1` itself: diagonals `D11`, `D22` and the diagonals
of `V1†·U12·W2†` and `V2†·U21·W1†` for the off-diagonal ports. -/
def configButterfly {α φ σ : Type} (ops : MZIOps α φ σ)
    (svd : ℕ → Mat α → Mat α × Vec α × Mat α) :
    ℕ → Mat α → (Fin 2 → Fin 2 → ℕ → ℕ → α)
  | 0, U => fun a b i j => if i = 0 ∧ j = 0 then U a b else ops.zero
  | k+1, U =>
    let m := 2 ^ (k + 1)
    let U11 : Mat α := fun i j => U i j
    let U12 : Mat α := fun i j => U i (j + m)
    let U21 : Mat α := fun i j => U (i + m) j
    let U22 : Mat α := fun i j => U (i + m) (j + m)
    let R1 := svd m U11
    let R2 := svd m U22
    let off12 := fun t => matmul ops m (matmul ops m (dagger ops R1.1) U12) (dagger ops R2.2.2) t t
    let off21 := fun t => matmul ops m (matmul ops m (dagger ops R2.1) U21) (dagger ops R1.2.2) t t
    let S11 := configButterfly ops svd k R1.2.2
    let S12 := configButterfly ops svd k R2.2.2
    let S21 := configButterfly ops svd k R1.1
    let S22 := configButterfly ops svd k R2.1
    fun a b i j =>
      if i = m - 1 then
        (if a = 0 then (if b = 0 then R1.2.1 j else off12 j)
         else (if b = 0 then off21 j else R2.2.1 j))
      else if i < m - 1 then
        (if j < 2 ^ k then S11 a b i j else S12 a b i (j - 2 ^ k))
      else
        (if j < 2 ^ k then S21 a b (i - m) j else S22 a b (i - m) (j - 2 ^ k))

/-- State threaded through the phase-solving pass: the block-amplitude
tensor `Dij`, the crossing parameters `p_crossing` (viewed as
`(N-1, N/2, 2)` as in the source) and the output phases `phi_out`. -/
structure SolverState (α φ : Type) where
  dij : Fin 2 → Fin 2 → ℕ → ℕ → α
  pcr : ℕ → ℕ → Fin 2 → φ
  phi : Vec φ

/-- Reduce a natural index modulo 2 into `Fin 2`. -/
def fin2 (n : ℕ) : Fin 2 := ⟨n % 2, Nat.mod_lt n (by decide)⟩

/-- One iteration of the solving loop of `ButterflyNetwork.__init__`
for layer `i`, translated line by line from the source:
`phi_out[:] = phi_out[p1]`;
`Dij[:, 0, i, :] *= exp(1j*phi_out[::2])` and
`Dij[:, 1, i, :] *= exp(1j*phi_out[1::2])`;
`p_crossing[i] = Tsolve((Dij[0, 0, i], Dij[0, 1, i]), 'T1:')[:1][0].T`;
`phi_out[:] = angle(Dij[:, :, i]/T(p_crossing[i]))[:, 0, :].T.flatten()[p2]`. -/
def solveLayer {α φ σ : Type} (ops : MZIOps α φ σ) (i : ℕ)
    (st : SolverState α φ) : SolverState α φ :=
  let s := strideOf i
  let phi1 : Vec φ := fun m => st.phi (permP1 s m)
  let dij1 : Fin 2 → Fin 2 → ℕ → ℕ → α := fun a b i' j =>
    if i' = i then ops.mul (st.dij a b i' j) (ops.cexp (phi1 (2 * j + b.val)))
    else st.dij a b i' j
  let row := ops.tsolve "T1:" (fun j => dij1 0 0 i j) (fun j => dij1 0 1 i j)
  let pcr1 : ℕ → ℕ → Fin 2 → φ := fun i' j k => if i' = i then row j k else st.pcr i' j k
  let phi2 : Vec φ := fun m =>
    let t := permP2 s m
    ops.angle (ops.div (dij1 (fin2 t) 0 i (t / 2)) (ops.tfwd (row (t / 2)) ops.sdefault (fin2 t) 0))
  { dij := dij1, pcr := pcr1, phi := phi2 }

/-- The phase-solving pass: `for i in range(N-1): ...` of the source. -/
def phaseSolver {α φ σ : Type} (ops : MZIOps α φ σ) (N : ℕ)
    (st0 : SolverState α φ) : SolverState α φ :=
  (List.range (N - 1)).foldl (fun st i => solveLayer ops i st) st0

/-- Mesh fields written by the configuration pass: `p_crossing`,
`phi_out`, and the stored (pass-through) `p_splitter`. -/
structure MeshConfig (α φ σ : Type) where
  p_crossing : ℕ → ℕ → Fin 2 → φ
  phi_out : Vec φ
  p_splitter : ℕ → ℕ → σ

/-- The matrix-supplied branch of `ButterflyNetwork.__init__`: run the
recursive decomposition on `M` (for mesh size `N = 2^(log2 N)`), then
the phase-solving pass, starting from the externally supplied
`p_crossing` and `phi_out` arrays, and store `p_splitter` unchanged.
Note the crossing calls of the solving loop receive no splitter
argument in the source, so `psplit` reaches only the stored field. -/
def configureFromMatrix {α φ σ : Type} (ops : MZIOps α φ σ)
    (svd : ℕ → Mat α → Mat α × Vec α × Mat α) (N : ℕ) (M : Mat α)
    (psplit : ℕ → ℕ → σ) (pcr0 : ℕ → ℕ → Fin 2 → φ) (phi0 : Vec φ) :
    MeshConfig α φ σ :=
  let final := phaseSolver ops N
    { dij := configButterfly ops svd (Nat.log2 N - 1) M, pcr := pcr0, phi := phi0 }
  { p_crossing := final.pcr, phi_out := final.phi, p_splitter := psplit }

/-- Construction-time error cases of `ButterflyNetwork.__init__`. -/
inductive BFError : Type where
  | argError : BFError
  | phiPosError : BFError
  | sizeError : BFError
deriving DecidableEq

/-- Embedding of `ButterflyNetwork.__init__`, in source order:
`assert (N is None) ^ (M is None)`; `assert phi_pos == 'out'`;
`N = (N if N else len(M))`; `assert N == 2**int(np.log2(N))`; then the
topology arrays, and the configuration pass when `M` is given.  A
supplied matrix is paired with its size (`len(M)`). -/
def butterflyInit {α φ σ : Type} (ops : MZIOps α φ σ)
    (svd : ℕ → Mat α → Mat α × Vec α × Mat α)
    (Nopt : Option ℕ) (Mopt : Option (ℕ × Mat α))
    (psplit : ℕ → ℕ → σ) (pcr0 : ℕ → ℕ → Fin 2 → φ) (phi0 : Vec φ)
    (phiPos : String) :
    Except BFError (MeshConfig α φ σ × List ℕ × List ℕ) :=
  if (Nopt.isNone ^^ Mopt.isNone) = false then .error .argError
  else if phiPos ≠ "out" then .error .phiPosError
  else
    let N := match Nopt with
      | some n => n
      | none => (Mopt.map Prod.fst).getD 0
    if N ≠ 2 ^ Nat.log2 N then .error .sizeError
    else match Mopt with
      | none =>
        .ok ({ p_crossing := pcr0, phi_out := phi0, p_splitter := psplit },
             lensOf N, shiftsOf N)
      | some nM =>
        .ok (configureFromMatrix ops svd N nM.2 psplit pcr0 phi0,
             lensOf N, shiftsOf N)

/-- Specification-side step 1 for layer `i`: permute `phi_out` by the
layer's first permutation vector. -/
def specPermutePhi {α φ : Type} (i : ℕ) (st : SolverState α φ) : SolverState α φ :=
  { st with phi := fun m => st.phi (permP1 (strideOf i) m) }

/-- Specification-side step 2 for layer `i`: multiply `Dij[:, 0, i, :]`
by `exp(1j*phi_out)` at even indices and `Dij[:, 1, i, :]` by
`exp(1j*phi_out)` at odd indices. -/
def specAbsorbPhases {α φ σ : Type} (ops : MZIOps α φ σ) (i : ℕ)
    (st : SolverState α φ) : SolverState α φ :=
  { st with dij := fun a b i' j =>
      if i' = i then ops.mul (st.dij a b i' j) (ops.cexp (st.phi (2 * j + b.val)))
      else st.dij a b i' j }

/-- Specification-side step 3 for layer `i`: obtain the layer's
crossing parameters from the inverse solve in the mode solving against
the first of the two target amplitude columns. -/
def specSolveCrossings {α φ σ : Type} (ops : MZIOps α φ σ) (i : ℕ)
    (st : SolverState α φ) : SolverState α φ :=
  { st with pcr := fun i' j k =>
      if i' = i then ops.tsolve "T1:" (fun j => st.dij 0 0 i j) (fun j => st.dij 0 1 i j) j k
      else st.pcr i' j k }

/-- Specification-side step 4 for layer `i`: set `phi_out` to the
element-wise phase difference between `Dij` and the recomputed forward
transfer matrix, re-permuted by the layer's second permutation
vector. -/
def specRecomputePhi {α φ σ : Type} (ops : MZIOps α φ σ) (i : ℕ)
    (st : SolverState α φ) : SolverState α φ :=
  { st with phi := fun m =>
      let t := permP2 (strideOf i) m
      ops.angle (ops.div (st.dij (fin2 t) 0 i (t / 2))
        (ops.tfwd (st.pcr i (t / 2)) ops.sdefault (fin2 t) 0)) }

/-- Specification-side phase solver: at each processed layer, perform
the four steps in the stated sequence. -/
def phaseSolverSpec {α φ σ : Type} (ops : MZIOps α φ σ) (layers : List ℕ)
    (st0 : SolverState α φ) : SolverState α φ :=
  layers.foldl (fun st i =>
    specRecomputePhi ops i (specSolveCrossings ops i (specAbsorbPhases ops i (specPermutePhi i st)))) st0

/-- A concrete instantiation of the abstract operations over the
integers, used to evaluate the pipeline on explicit inputs. -/
def intOps : MZIOps ℤ ℤ ℤ where
  zero := 0
  add := (· + ·)
  mul := (· * ·)
  div := (· - ·)
  conj := (- ·)
  cexp := (2 * ·)
  angle := (· + 1)
  sdefault := 0
  tsolve := fun _ c0 c1 j k => c0 j + c1 j + k.val
  tfwd := fun p s a b => p a + s + b.val

/-- A concrete stand-in for the abstract SVD over the integers. -/
def intSvd : ℕ → Mat ℤ → Mat ℤ × Vec ℤ × Mat ℤ :=
  fun _ A => (A, fun i => A i i, fun i j => A j i)

/-- A concrete `2 × 2` input matrix. -/
def mat2 : Mat ℤ := fun i j => 1 + i + 2 * j

/-- A concrete initial solver state built from the decomposition of
`mat2` at size 2, with zero-initialized parameters and phases. -/
def st0Int : SolverState ℤ ℤ :=
  { dij := configButterfly intOps intSvd 0 mat2,
    pcr := fun _ _ _ => 0, phi := fun _ => 0 }

example : phaseSolver intOps 2 st0Int = solveLayer intOps 0 st0Int := rfl

example : [strideOf 0, strideOf 1, strideOf 2, strideOf 3, strideOf 4, strideOf 5, strideOf 6]
    = [1, 2, 1, 4, 1, 2, 1] := by decide

theorem lowBitAux_dvd : ∀ fuel n, 0 < n → n ≤ fuel →
    2 ^ lowBitAux fuel n ∣ n ∧ ¬ 2 ^ (lowBitAux fuel n + 1) ∣ n := by
  intro fuel
  induction fuel with
  | zero => intro n h0 h1; omega
  | succ f ih =>
    intro n h0 h1
    by_cases hodd : n % 2 = 1
    · simp only [lowBitAux, if_pos hodd]
      refine ⟨by simpa using one_dvd n, ?_⟩
      intro hdvd
      rw [pow_one] at hdvd
      omega
    · have heven : n % 2 = 0 := by omega
      simp only [lowBitAux, if_neg hodd]
      have h2 : n / 2 ≤ f := by omega
      have h3 : 0 < n / 2 := by omega
      obtain ⟨hd, hnd⟩ := ih (n / 2) h3 h2
      set r := lowBitAux f (n / 2) with hr
      have hn2 : n = 2 * (n / 2) := by omega
      constructor
      · rw [pow_succ, mul_comm (2 ^ r) 2, hn2]
        exact mul_dvd_mul_left 2 hd
      · intro hcon
        apply hnd
        rw [pow_succ, mul_comm _ 2, hn2] at hcon
        exact (mul_dvd_mul_iff_left (by norm_num : (2:ℕ) ≠ 0)).mp hcon

theorem lowbit_unique {a b n : ℕ} (h1 : 2 ^ a ∣ n) (h2 : ¬ 2 ^ (a + 1) ∣ n)
    (h3 : 2 ^ b ∣ n) (h4 : ¬ 2 ^ (b + 1) ∣ n) : a = b := by
  rcases lt_trichotomy a b with h | h | h
  · exact absurd (dvd_trans (pow_dvd_pow 2 (by omega : a + 1 ≤ b)) h3) h2
  · exact h
  · exact absurd (dvd_trans (pow_dvd_pow 2 (by omega : b + 1 ≤ a)) h1) h4

theorem lowBitPos_dvd {n : ℕ} (h : 0 < n) :
    2 ^ lowBitPos n ∣ n ∧ ¬ 2 ^ (lowBitPos n + 1) ∣ n :=
  lowBitAux_dvd n n h le_rfl

theorem lowBitPos_two_pow (j : ℕ) : lowBitPos (2 ^ j) = j := by
  obtain ⟨hd, hnd⟩ := lowBitPos_dvd (pow_pos (by norm_num : (0:ℕ) < 2) j)
  refine lowbit_unique hd hnd (dvd_refl _) ?_
  intro hcon
  have hle := Nat.le_of_dvd (pow_pos (by norm_num) j) hcon
  have hlt : (2:ℕ) ^ j < 2 ^ (j + 1) :=
    Nat.pow_lt_pow_right (by norm_num) (by omega)
  omega

theorem lowBitPos_odd {n : ℕ} (h : n % 2 = 1) : lowBitPos n = 0 := by
  obtain ⟨hd, -⟩ := lowBitPos_dvd (show 0 < n by omega)
  by_contra hne
  have h1 : (2:ℕ) ∣ n :=
    dvd_trans (by simpa using pow_dvd_pow 2 (show 1 ≤ lowBitPos n by omega)) hd
  omega

theorem x1p_lt {s t : ℕ} (hs : 0 < s) (ht : t < 2 * s) : x1p s t < 2 * s := by
  unfold x1p; split <;> omega

theorem x2p_lt {s t : ℕ} (hs : 0 < s) (ht : t < 2 * s) : x2p s t < 2 * s := by
  unfold x2p; split <;> omega

theorem x2p_x1p {s t : ℕ} (hs : 0 < s) (ht : t < 2 * s) : x2p s (x1p s t) = t := by
  unfold x1p x2p; split_ifs <;> omega

theorem x1p_x2p {s t : ℕ} (hs : 0 < s) (ht : t < 2 * s) : x1p s (x2p s t) = t := by
  unfold x1p x2p; split_ifs <;> omega

theorem permP2_permP1 {s : ℕ} (hs : 0 < s) (m : ℕ) : permP2 s (permP1 s m) = m := by
  unfold permP1 permP2
  have h2s : 0 < 2 * s := by omega
  have ht : m % (2 * s) < 2 * s := Nat.mod_lt m h2s
  have hx1 : x1p s (m % (2 * s)) < 2 * s := x1p_lt hs ht
  rw [Nat.mul_add_div h2s, Nat.mul_add_mod, Nat.div_eq_of_lt hx1, Nat.mod_eq_of_lt hx1,
    add_zero, x2p_x1p hs ht]
  exact Nat.div_add_mod m (2 * s)

theorem permP1_permP2 {s : ℕ} (hs : 0 < s) (m : ℕ) : permP1 s (permP2 s m) = m := by
  unfold permP1 permP2
  have h2s : 0 < 2 * s := by omega
  have ht : m % (2 * s) < 2 * s := Nat.mod_lt m h2s
  have hx2 : x2p s (m % (2 * s)) < 2 * s := x2p_lt hs ht
  rw [Nat.mul_add_div h2s, Nat.mul_add_mod, Nat.div_eq_of_lt hx2, Nat.mod_eq_of_lt hx2,
    add_zero, x1p_x2p hs ht]
  exact Nat.div_add_mod m (2 * s)

theorem permP1_lt {s N m : ℕ} (hs : 0 < s) (hdvd : 2 * s ∣ N) (hm : m < N) :
    permP1 s m < N := by
  unfold permP1
  have h2s : 0 < 2 * s := by omega
  have hx1 : x1p s (m % (2 * s)) < 2 * s := x1p_lt hs (Nat.mod_lt m h2s)
  have hq : m / (2 * s) < N / (2 * s) := Nat.div_lt_div_of_lt_of_dvd hdvd hm
  calc 2 * s * (m / (2 * s)) + x1p s (m % (2 * s))
      < 2 * s * (m / (2 * s)) + 2 * s := Nat.add_lt_add_left hx1 _
    _ = 2 * s * (m / (2 * s) + 1) := (Nat.mul_succ _ _).symm
    _ ≤ 2 * s * (N / (2 * s)) := Nat.mul_le_mul le_rfl (by omega)
    _ = N := Nat.mul_div_cancel' hdvd

theorem permP2_lt {s N m : ℕ} (hs : 0 < s) (hdvd : 2 * s ∣ N) (hm : m < N) :
    permP2 s m < N := by
  unfold permP2
  have h2s : 0 < 2 * s := by omega
  have hx2 : x2p s (m % (2 * s)) < 2 * s := x2p_lt hs (Nat.mod_lt m h2s)
  have hq : m / (2 * s) < N / (2 * s) := Nat.div_lt_div_of_lt_of_dvd hdvd hm
  calc 2 * s * (m / (2 * s)) + x2p s (m % (2 * s))
      < 2 * s * (m / (2 * s)) + 2 * s := Nat.add_lt_add_left hx2 _
    _ = 2 * s * (m / (2 * s) + 1) := (Nat.mul_succ _ _).symm
    _ ≤ 2 * s * (N / (2 * s)) := Nat.mul_le_mul le_rfl (by omega)
    _ = N := Nat.mul_div_cancel' hdvd

theorem bijOn_of_inverse {f g : ℕ → ℕ} {N : ℕ}
    (hf : ∀ m, m < N → f m < N) (hg : ∀ m, m < N → g m < N)
    (hgf : ∀ m, g (f m) = m) (hfg : ∀ m, f (g m) = m) :
    Set.BijOn f (Set.Iio N) (Set.Iio N) := by
  refine ⟨fun m hm => hf m hm, ?_, ?_⟩
  · intro a _ b _ hab
    have h := congrArg g hab
    rwa [hgf, hgf] at h
  · intro y hy
    exact ⟨g y, hg y hy, hfg y⟩

theorem bijOn_foldl_comp {S : Set ℕ} :
    ∀ (L : List (ℕ → ℕ)) (f0 : ℕ → ℕ),
      (∀ g ∈ L, Set.BijOn g S S) → Set.BijOn f0 S S →
      Set.BijOn (L.foldl (fun f g => g ∘ f) f0) S S := by
  intro L
  induction L with
  | nil => intro f0 _ h; exact h
  | cons g L ih =>
    intro f0 hL h0
    simp only [List.foldl_cons]
    exact ih _ (fun g' hg' => hL g' (List.mem_cons_of_mem _ hg'))
      ((hL g (List.mem_cons_self _ _)).comp h0)

theorem solveLayer_eq_spec {α φ σ : Type} (ops : MZIOps α φ σ) (i : ℕ)
    (st : SolverState α φ) :
    solveLayer ops i st
      = specRecomputePhi ops i
          (specSolveCrossings ops i (specAbsorbPhases ops i (specPermutePhi i st))) := by
  unfold solveLayer specRecomputePhi specSolveCrossings specAbsorbPhases specPermutePhi
  dsimp only
  congr 1
  funext m
  simp

theorem two_stride_dvd {N k i : ℕ} (hN : N = 2 ^ k) (hk : 1 ≤ k) (hi : i ≤ N - 2) :
    2 * strideOf i ∣ N ∧ strideOf i ≤ N / 2 := by
  subst hN
  obtain ⟨k0, rfl⟩ : ∃ k0, k = k0 + 1 := ⟨k - 1, by omega⟩
  obtain ⟨hd, -⟩ := lowBitPos_dvd (show 0 < i + 1 by omega)
  have hx : 1 ≤ 2 ^ k0 := Nat.one_le_two_pow
  have hN2 : (2:ℕ) ^ (k0 + 1) = 2 * 2 ^ k0 := by rw [pow_succ, mul_comm]
  have hle : 2 ^ lowBitPos (i + 1) ≤ i + 1 := Nat.le_of_dvd (by omega) hd
  have hi1 : i + 1 < 2 ^ (k0 + 1) := by omega
  have hrk : lowBitPos (i + 1) ≤ k0 := by
    by_contra hcon
    have h := Nat.pow_le_pow_right (show 1 ≤ 2 by norm_num)
      (show k0 + 1 ≤ lowBitPos (i + 1) by omega)
    omega
  constructor
  · show 2 * 2 ^ lowBitPos (i + 1) ∣ 2 ^ (k0 + 1)
    have h : 2 * 2 ^ lowBitPos (i + 1) = 2 ^ (lowBitPos (i + 1) + 1) := by
      rw [pow_succ, mul_comm]
    rw [h]
    exact pow_dvd_pow 2 (by omega)
  · show 2 ^ lowBitPos (i + 1) ≤ 2 ^ (k0 + 1) / 2
    have h := Nat.pow_le_pow_right (show 1 ≤ 2 by norm_num) hrk
    omega

example : (List.range 4).map (permP1 2) = [0, 2, 1, 3] := by decide
example : (List.range 4).map (permP2 2) = [0, 2, 1, 3] := by decide
example : (List.range 8).map (permP1 2) = [0, 2, 1, 3, 4, 6, 5, 7] := by decide
example : (List.range 8).map (permP2 1) = [0, 1, 2, 3, 4, 5, 6, 7] := by decide
example : composedPerms 4 3 = 3 := by decide

/-- C2: when a target matrix is supplied, the phase-solving pass
processes the layers `i = 0 … N-2` in strictly increasing order, and at
each layer performs, in sequence: permute `phi_out` by the layer's
first permutation vector; multiply `Dij[:, 0, i, :]` by
`exp(1j*phi_out)` at even indices and `Dij[:, 1, i, :]` at odd indices;
obtain the crossing parameters from the inverse solve in the
first-target-column mode; set `phi_out` to the element-wise phase
difference between `Dij` and the recomputed forward transfer matrix,
re-permuted by the layer's second permutation vector. -/
theorem phase_solver_layer_sequence {α φ σ : Type} (ops : MZIOps α φ σ) (N : ℕ)
    (st0 : SolverState α φ) :
    phaseSolver ops N st0 = phaseSolverSpec ops (List.range (N - 1)) st0
    ∧ List.Pairwise (· < ·) (List.range (N - 1)) := by
  constructor
  · unfold phaseSolver phaseSolverSpec
    induction (List.range (N - 1)) generalizing st0 with
    | nil => rfl
    | cons i L ih =>
      simp only [List.foldl_cons]
      rw [solveLayer_eq_spec]
      exact ih _
  · exact List.pairwise_lt_range _

/-- C3: for every power-of-two mesh size and every layer `i` in
`[0, N-2]`, the stride of layer `i` is `2^s` where `s` is the position
of the lowest set bit of `i+1` (characterized by `2^s ∣ i+1` and
`¬(2^(s+1) ∣ i+1)`); layer 0 has stride 1, and for `N = 4` the topology
has 3 layers of 2 crossings each with strides `[1, 2, 1]`. -/
theorem stride_sequence_correct (N k i : ℕ) (hN : N = 2 ^ k) (hk : 1 ≤ k)
    (hi : i ≤ N - 2) :
    (strideOf i = 2 ^ lowBitPos (i + 1)
      ∧ 2 ^ lowBitPos (i + 1) ∣ (i + 1)
      ∧ ¬ 2 ^ (lowBitPos (i + 1) + 1) ∣ (i + 1))
    ∧ strideOf 0 = 1
    ∧ ((lensOf 4).length = 3 ∧ lensOf 4 = [2, 2, 2]
      ∧ [strideOf 0, strideOf 1, strideOf 2] = [1, 2, 1]) := by
  obtain ⟨hd, hnd⟩ := lowBitPos_dvd (show 0 < i + 1 by omega)
  exact ⟨⟨rfl, hd, hnd⟩, by decide, by decide, by decide, by decide⟩

/-- Witness for C3 at `N = 4`, `k = 2`, `i = 1`. -/
theorem stride_sequence_correct_witness :
    ((4:ℕ) = 2 ^ 2 ∧ (1:ℕ) ≤ 2 ∧ (1:ℕ) ≤ 4 - 2)
    ∧ ((strideOf 1 = 2 ^ lowBitPos 2
        ∧ 2 ^ lowBitPos 2 ∣ 2
        ∧ ¬ 2 ^ (lowBitPos 2 + 1) ∣ 2)
      ∧ strideOf 0 = 1
      ∧ ((lensOf 4).length = 3 ∧ lensOf 4 = [2, 2, 2]
        ∧ [strideOf 0, strideOf 1, strideOf 2] = [1, 2, 1])) :=
  ⟨by decide, stride_sequence_correct 4 2 1 rfl (by decide) (by decide)⟩

/-- C4 counterexample: for `N = 4` the last layer, indexed
`N - 2 = 2`, has stride 1, not the claimed maximal stride `N/2 = 2`
(the source's stride of layer `i` is `2^(lowest set bit of i+1)` and
`i + 1 = N - 1` is odd). -/
theorem last_layer_stride_cex : strideOf (4 - 2) ≠ 4 / 2 := by decide

/-- C4 amended: for every power-of-two `N ≥ 4`, the maximal stride
`N/2` is attained at the middle layer `i = N/2 - 1`; all layer strides
are at most `N/2`, and the last layer `i = N - 2` has stride 1. -/
theorem max_stride_at_middle_layer (N k : ℕ) (hN : N = 2 ^ k) (hk : 2 ≤ k) :
    strideOf (N / 2 - 1) = N / 2
    ∧ (∀ i, i ≤ N - 2 → strideOf i ≤ N / 2)
    ∧ strideOf (N - 2) = 1 := by
  obtain ⟨k0, rfl⟩ : ∃ k0, k = k0 + 1 := ⟨k - 1, by omega⟩
  subst hN
  have hx : 1 ≤ 2 ^ k0 := Nat.one_le_two_pow
  have hN2 : (2:ℕ) ^ (k0 + 1) = 2 * 2 ^ k0 := by rw [pow_succ, mul_comm]
  have hhalf : 2 ^ (k0 + 1) / 2 = 2 ^ k0 := by omega
  refine ⟨?_, ?_, ?_⟩
  · rw [hhalf]
    have h1 : 2 ^ k0 - 1 + 1 = 2 ^ k0 := by omega
    show 2 ^ lowBitPos (2 ^ k0 - 1 + 1) = 2 ^ k0
    rw [h1, lowBitPos_two_pow]
  · intro i hi
    exact (two_stride_dvd rfl (by omega) hi).2
  · have hodd : (2 ^ (k0 + 1) - 2 + 1) % 2 = 1 := by omega
    show 2 ^ lowBitPos (2 ^ (k0 + 1) - 2 + 1) = 1
    rw [lowBitPos_odd hodd, pow_zero]

/-- Witness for the amended C4 at `N = 4`, `k = 2`. -/
theorem max_stride_at_middle_layer_witness :
    ((4:ℕ) = 2 ^ 2 ∧ (2:ℕ) ≤ 2)
    ∧ (strideOf (4 / 2 - 1) = 4 / 2
      ∧ (∀ i, i ≤ 4 - 2 → strideOf i ≤ 4 / 2)
      ∧ strideOf (4 - 2) = 1) :=
  ⟨by decide, max_stride_at_middle_layer 4 2 rfl (by decide)⟩

/-- C5: for every power-of-two `N` and layer `i` in `[0, N-2]`, each of
the two permutation vectors generated for that layer is a bijection on
`{0, …, N-1}`, and composing all layer permutations in propagation
order is again a bijection on `{0, …, N-1}`. -/
theorem layer_perms_bijective (N k i : ℕ) (hN : N = 2 ^ k) (hk : 1 ≤ k)
    (hi : i ≤ N - 2) :
    Set.BijOn (permP1 (strideOf i)) (Set.Iio N) (Set.Iio N)
    ∧ Set.BijOn (permP2 (strideOf i)) (Set.Iio N) (Set.Iio N)
    ∧ Set.BijOn (composedPerms N) (Set.Iio N) (Set.Iio N) := by
  have key : ∀ j, j ≤ N - 2 →
      Set.BijOn (permP1 (strideOf j)) (Set.Iio N) (Set.Iio N)
      ∧ Set.BijOn (permP2 (strideOf j)) (Set.Iio N) (Set.Iio N) := by
    intro j hj
    have hsj : 0 < strideOf j := pow_pos (by norm_num) _
    have hdvd := (two_stride_dvd hN hk hj).1
    exact ⟨bijOn_of_inverse (fun m hm => permP1_lt hsj hdvd hm)
        (fun m hm => permP2_lt hsj hdvd hm) (permP2_permP1 hsj) (permP1_permP2 hsj),
      bijOn_of_inverse (fun m hm => permP2_lt hsj hdvd hm)
        (fun m hm => permP1_lt hsj hdvd hm) (permP1_permP2 hsj) (permP2_permP1 hsj)⟩
  obtain ⟨h1, h2⟩ := key i hi
  refine ⟨h1, h2, ?_⟩
  unfold composedPerms
  apply bijOn_foldl_comp
  · intro g hg
    unfold allLayerPerms at hg
    rw [List.mem_flatMap] at hg
    obtain ⟨j, hj, hgj⟩ := hg
    rw [List.mem_range] at hj
    have hN2 : 2 ≤ N := by
      subst hN
      calc 2 = 2 ^ 1 := rfl
        _ ≤ 2 ^ k := Nat.pow_le_pow_right (by norm_num) hk
    obtain ⟨hp1, hp2⟩ := key j (by omega)
    simp only [List.mem_cons, List.not_mem_nil, or_false] at hgj
    rcases hgj with rfl | rfl
    · exact hp1
    · exact hp2
  · exact Set.bijOn_id _

/-- Witness for C5 at `N = 4`, `k = 2`, `i = 1`. -/
theorem layer_perms_bijective_witness :
    ((4:ℕ) = 2 ^ 2 ∧ (1:ℕ) ≤ 2 ∧ (1:ℕ) ≤ 4 - 2)
    ∧ (Set.BijOn (permP1 (strideOf 1)) (Set.Iio 4) (Set.Iio 4)
      ∧ Set.BijOn (permP2 (strideOf 1)) (Set.Iio 4) (Set.Iio 4)
      ∧ Set.BijOn (composedPerms 4) (Set.Iio 4) (Set.Iio 4)) :=
  ⟨by decide, layer_perms_bijective 4 2 1 rfl (by decide) (by decide)⟩

/-- C6: the recursive decomposition's base case at block size 2 writes
the 2×2 sub-unitary itself into `Dij` at position `[:, :, 0, 0]` with
no further recursion (in particular no SVD is consulted), and for
`N = 2` the solving loop reduces to a single layer step, hence exactly
one inverse-solve call. -/
theorem base_case_single_crossing {α φ σ : Type} (ops : MZIOps α φ σ)
    (svd svd2 : ℕ → Mat α → Mat α × Vec α × Mat α) (U : Mat α)
    (st0 : SolverState α φ) :
    (∀ a b : Fin 2, configButterfly ops svd 0 U a b 0 0 = U a b)
    ∧ configButterfly ops svd 0 U
        = (fun (a b : Fin 2) (i j : ℕ) => if i = 0 ∧ j = 0 then U a b else ops.zero)
    ∧ configButterfly ops svd 0 U = configButterfly ops svd2 0 U
    ∧ phaseSolver ops 2 st0 = solveLayer ops 0 st0 :=
  ⟨fun a b => rfl, rfl, rfl, rfl⟩

/-- C7 amended: `p_splitter` is stored (passed through) unchanged by
the configuration pass, but it is not consumed by the decomposition:
the source's inverse-solve and forward-map calls omit the splitter
argument, so the computed `p_crossing` and `phi_out` are identical for
all values of `p_splitter`. -/
theorem splitter_passthrough_independent {α φ σ : Type} (ops : MZIOps α φ σ)
    (svd : ℕ → Mat α → Mat α × Vec α × Mat α) (N : ℕ) (M : Mat α)
    (ps ps2 : ℕ → ℕ → σ) (pcr0 : ℕ → ℕ → Fin 2 → φ) (phi0 : Vec φ) :
    (configureFromMatrix ops svd N M ps pcr0 phi0).p_splitter = ps
    ∧ (configureFromMatrix ops svd N M ps pcr0 phi0).p_crossing
        = (configureFromMatrix ops svd N M ps2 pcr0 phi0).p_crossing
    ∧ (configureFromMatrix ops svd N M ps pcr0 phi0).phi_out
        = (configureFromMatrix ops svd N M ps2 pcr0 phi0).phi_out :=
  ⟨rfl, rfl, rfl⟩

/-- C7 counterexample: there is no nonzero `p_splitter` for which the
computed `p_crossing` or `phi_out` differ from the result obtained with
`p_splitter = 0`, refuting the claimed consumption of `p_splitter` by
the decomposition's crossing calls (here on the concrete size-2
configuration of `mat2` over the integer instantiation). -/
theorem splitter_consumption_cex :
    ¬ ∃ ps : ℕ → ℕ → ℤ, ps ≠ (fun _ _ => 0)
      ∧ ((configureFromMatrix intOps intSvd 2 mat2 ps (fun _ _ _ => 0) (fun _ => 0)).p_crossing
          ≠ (configureFromMatrix intOps intSvd 2 mat2 (fun _ _ => 0) (fun _ _ _ => 0)
              (fun _ => 0)).p_crossing
        ∨ (configureFromMatrix intOps intSvd 2 mat2 ps (fun _ _ _ => 0) (fun _ => 0)).phi_out
          ≠ (configureFromMatrix intOps intSvd 2 mat2 (fun _ _ => 0) (fun _ _ _ => 0)
              (fun _ => 0)).phi_out) := by
  rintro ⟨ps, -, h | h⟩ <;> exact h rfl

/-- C8: constructing a mesh whose size is not a power of two fails with
the size-configuration error, before any decomposition work begins (the
result is this error for every choice of the crossing operations and of
the SVD routine, whether the size is given directly or via a target
matrix of that size). -/
theorem non_power_of_two_rejected {α φ σ : Type} (ops : MZIOps α φ σ)
    (svd : ℕ → Mat α → Mat α × Vec α × Mat α) (N : ℕ) (M : Mat α)
    (ps : ℕ → ℕ → σ) (pcr0 : ℕ → ℕ → Fin 2 → φ) (phi0 : Vec φ)
    (h : ∀ j, N ≠ 2 ^ j) :
    butterflyInit ops svd (some N) none ps pcr0 phi0 "out" = .error .sizeError
    ∧ butterflyInit ops svd none (some (N, M)) ps pcr0 phi0 "out" = .error .sizeError := by
  have hne : N ≠ 2 ^ Nat.log2 N := h _
  constructor <;> simp [butterflyInit, hne]

/-- Witness for C8 at `N = 6`. -/
theorem non_power_of_two_rejected_witness :
    (∀ j, (6:ℕ) ≠ 2 ^ j)
    ∧ (butterflyInit intOps intSvd (some 6) none (fun _ _ => 0) (fun _ _ _ => 0)
        (fun _ => 0) "out" = .error .sizeError
      ∧ butterflyInit intOps intSvd none (some (6, mat2)) (fun _ _ => 0) (fun _ _ _ => 0)
        (fun _ => 0) "out" = .error .sizeError) := by
  have h6 : ∀ j, (6:ℕ) ≠ 2 ^ j := by
    intro j
    rcases j with _ | _ | _ | j
    · decide
    · decide
    · decide
    · have h1 : (1:ℕ) ≤ 2 ^ j := Nat.one_le_two_pow
      have h2 : (2:ℕ) ^ (j + 3) = 8 * 2 ^ j := by ring
      omega
  exact ⟨h6, non_power_of_two_rejected intOps intSvd 6 mat2 _ _ _ h6⟩

/-- C9: providing both of `N` and `M`, or providing neither, fails with
the mutually-exclusive-argument configuration error at construction
time. -/
theorem exclusive_args_required {α φ σ : Type} (ops : MZIOps α φ σ)
    (svd : ℕ → Mat α → Mat α × Vec α × Mat α) (n sz : ℕ) (M : Mat α)
    (ps : ℕ → ℕ → σ) (pcr0 : ℕ → ℕ → Fin 2 → φ) (phi0 : Vec φ) :
    butterflyInit ops svd (some n) (some (sz, M)) ps pcr0 phi0 "out" = .error .argError
    ∧ butterflyInit ops svd (none : Option ℕ) (none : Option (ℕ × Mat α)) ps pcr0 phi0 "out"
        = .error .argError :=
  ⟨rfl, rfl⟩

/-- C10: the two permutation vectors of every layer are inverse to each
other, `p2[p1[m]] = m` for every mode `m` in `{0, …, N-1}`. -/
theorem perm_pair_inverse (N k i m : ℕ) (hN : N = 2 ^ k) (hk : 1 ≤ k)
    (hi : i ≤ N - 2) (hm : m < N) :
    permP2 (strideOf i) (permP1 (strideOf i) m) = m :=
  permP2_permP1 (pow_pos (by norm_num) _) m

/-- Witness for C10 at `N = 4`, `k = 2`, `i = 1`, `m = 3`. -/
theorem perm_pair_inverse_witness :
    ((4:ℕ) = 2 ^ 2 ∧ (1:ℕ) ≤ 2 ∧ (1:ℕ) ≤ 4 - 2 ∧ (3:ℕ) < 4)
    ∧ permP2 (strideOf 1) (permP1 (strideOf 1) 3) = 3 :=
  ⟨by decide, perm_pair_inverse 4 2 1 3 rfl (by decide) (by decide) (by decide)⟩
